import Mathlib

/-!
Verification development for the "31" card game (Pixi.js implementation).

The definitions below are a shallow embedding of the game-rule logic of the
repository: the deck (`src/game/Deck.js`), the scoring helpers
(`src/game/PointsCalculator.js`, `AIPlayer.calculatePointsBySuit`), the AI
decision functions (`src/ai/AIPlayer.js`) and the turn/action state updates
(`src/game/GameController.js`, `src/ai/Player2Controller.js`, `Game.js`).
JavaScript arrays become Lean lists, JS objects used as string-keyed maps
become association lists built in key-insertion order, and JS numbers that
are always non-negative integers become `Nat`.
-/

namespace CardGame31

/-- The four suits of `cardTypes/index.js` (the source spells clubs as
"flowers"). -/
inductive Suit
  | hearts
  | diamonds
  | flowers
  | spades
deriving DecidableEq, Repr

/-- The thirteen ranks of `cardTypes/index.js`. -/
inductive Rank
  | A
  | r2
  | r3
  | r4
  | r5
  | r6
  | r7
  | r8
  | r9
  | r10
  | J
  | Q
  | K
deriving DecidableEq, Repr

/-- A card: `Card(suitSymbol, suit, rank, id)` of `cardTypes/index.js`.
The `suitSymbol` is determined by `suit` (via `getSuitSymbol`) and the `id`
plays no role in the game logic, so a card is modelled by suit and rank. -/
structure Card where
  suit : Suit
  rank : Rank
deriving DecidableEq, Repr

/-- `rankOrder` of `cardSwapping/index.js`: A=11, numeric ranks at face
value, 10/J/Q/K = 10. -/
def rankOrder : Rank → Nat
  | .A => 11
  | .r2 => 2
  | .r3 => 3
  | .r4 => 4
  | .r5 => 5
  | .r6 => 6
  | .r7 => 7
  | .r8 => 8
  | .r9 => 9
  | .r10 => 10
  | .J => 10
  | .Q => 10
  | .K => 10

/-- Insertion step of a JS object used as a suit-to-number map:
`acc[suit] = (acc[suit] || 0) + v` keeps existing keys in place and appends
a new key at the end (JS object insertion order). -/
def addToSuit : List (Suit × Nat) → Suit → Nat → List (Suit × Nat)
  | [], s, v => [(s, v)]
  | (s', v') :: rest, s, v =>
    if s' = s then (s', v' + v) :: rest else (s', v') :: addToSuit rest s v

/-- `AIPlayer.calculatePointsBySuit(hand)`: a `reduce` over the hand that
accumulates `rankOrder[card.rank]` into an object keyed by the card's suit.
The result is the association list of (suit, total) pairs in key-insertion
order. -/
def calculatePointsBySuit (hand : List Card) : List (Suit × Nat) :=
  hand.foldl (fun acc c => addToSuit acc c.suit (rankOrder c.rank)) []

/-- Key lookup in the suit-keyed object built by `calculatePointsBySuit`. -/
def findSuit : List (Suit × Nat) → Suit → Option Nat
  | [], _ => none
  | (s', v) :: rest, s => if s' = s then some v else findSuit rest s

/-- The keys of a JS object built by inserting each card's suit in hand
order: first-occurrence order, no duplicates (`Object.keys` order). -/
def orderedKeys (hand : List Card) : List Suit :=
  hand.foldl (fun ks c => if c.suit ∈ ks then ks else ks ++ [c.suit]) []

/-- Specification-side helper: the sum of the rank values of the cards of
suit `s` in the hand (the per-suit total the JS object accumulates). -/
def suitPoints (hand : List Card) (s : Suit) : Nat :=
  (hand.filter (fun c => decide (c.suit = s))).foldl
    (fun acc c => acc + rankOrder c.rank) 0

/-- `Math.max` over a list of naturals, with 0 for the empty list (the
source only applies it to non-empty lists, where the two agree). -/
def listMax : List Nat → Nat
  | [] => 0
  | v :: rest => max v (listMax rest)

/-- All four suits. -/
def allSuits : List Suit := [.hearts, .diamonds, .flowers, .spades]

/-- The best-suit score as the source computes it: the maximum of the values
of `calculatePointsBySuit` (`Math.max(...Object.values(pointsBySuit))`, as
at `AIPlayer.shouldKnock` and `PointsCalculator`). For an empty hand
`PointsCalculator` returns early and the stored score keeps its initial
value 0. -/
def bestScore (hand : List Card) : Nat :=
  if hand.isEmpty then 0
  else listMax ((calculatePointsBySuit hand).map Prod.snd)

/-- Specification-side best score: the maximum over all four suits of the
per-suit rank-value sums. -/
def bestScoreSpec (hand : List Card) : Nat :=
  listMax (allSuits.map (suitPoints hand))

/-- An opponent card as seen by the AI: the `visible` flag is set on the
card objects of Player 1's dealt hand (`GameController.dealCardsOneByOne`)
and read by `AIPlayer.shouldKnock`. -/
structure OppCard where
  card : Card
  visible : Bool
deriving DecidableEq, Repr

/-- The game-stage part of `AIPlayer.shouldKnock` (AIPlayer.js:405-433):
early game (fewer than 3 discards) knocks on a flat 26 threshold, mid game
(3 to 5) needs the estimate plus a margin of 2, late game a margin of 1. -/
def stageDecision (p2max p1est totalTurns : Nat) : Bool :=
  if totalTurns < 3 then decide (26 ≤ p2max)
  else if totalTurns < 6 then decide (p1est + 2 ≤ p2max)
  else decide (p1est + 1 ≤ p2max)

/-- `AIPlayer.shouldKnock` (AIPlayer.js:327-434). `hand` is Player 2's
hand, `oppHand` Player 1's hand with per-card visibility, `discardLen` the
length of `gameState.discardPile`. The console logging of the source has no
effect on the returned value and is dropped. -/
def shouldKnock (hand : List Card) (oppHand : List OppCard)
    (discardLen : Nat) : Bool :=
  if hand.length ≠ 3 then false
  else
    let p2max := listMax ((calculatePointsBySuit hand).map Prod.snd)
    if p2max = 31 then true
    else if 25 ≤ p2max then true
    else
      let vis := (oppHand.filter (fun c => c.visible)).map (fun c => c.card)
      if 0 < vis.length then
        let p1est := listMax ((calculatePointsBySuit vis).map Prod.snd)
        if oppHand.length - 1 ≤ vis.length then decide (p1est + 1 ≤ p2max)
        else stageDecision p2max p1est discardLen
      else
        stageDecision p2max (if 3 < discardLen then 21 else 19) discardLen

/-- Indexing helper: `hand.map((card, index) => ({card, index}))` of
`AIPlayer.selectCardToDiscard`, carrying the position of each card. -/
def withIdxFrom : Nat → List Card → List (Nat × Card)
  | _, [] => []
  | i, c :: rest => (i, c) :: withIdxFrom (i + 1) rest

/-- The hand paired with indices, starting at 0. -/
def withIdx (hand : List Card) : List (Nat × Card) := withIdxFrom 0 hand

/-- The entry `suitGroups[s]` of `selectCardToDiscard`: the (index, card)
pairs of the hand whose card has suit `s` (fields `cards` and `indices`). -/
def groupOf (hand : List Card) (s : Suit) : List (Nat × Card) :=
  (withIdx hand).filter (fun p => decide (p.2.suit = s))

/-- `suitGroups[s].cards.length`. -/
def suitCount (hand : List Card) (s : Suit) : Nat := (groupOf hand s).length

/-- `suitGroups[s].totalValue`: accumulated `rankOrder` of the group. -/
def suitTotal (hand : List Card) (s : Suit) : Nat :=
  (groupOf hand s).foldl (fun acc p => acc + rankOrder p.2.rank) 0

/-- First element of a stable descending sort by `key`: the first-occurring
element whose key is maximal (later elements replace the current best only
when strictly greater, which is exactly how `Array.prototype.sort`, being
stable, places ties). -/
def argmaxFirst {α : Type} (key : α → Nat) : List α → Option α
  | [] => none
  | x :: xs =>
    (argmaxFirst key xs).elim (some x) fun y =>
      if key x < key y then some y else some x

/-- First element of a stable ascending sort by `key`: the first-occurring
element whose key is minimal. -/
def argminFirst {α : Type} (key : α → Nat) : List α → Option α
  | [] => none
  | x :: xs =>
    (argminFirst key xs).elim (some x) fun y =>
      if key y < key x then some y else some x

/-- The comparator of `selectCardToDiscard`'s `suitValues` sort: card count
descending, then total value descending; `suitGTb hand a b` means `a` sorts
strictly before `b`. -/
def suitGTb (hand : List Card) (a b : Suit) : Bool :=
  decide (suitCount hand b < suitCount hand a) ||
    (decide (suitCount hand a = suitCount hand b) &&
      decide (suitTotal hand b < suitTotal hand a))

/-- `suitValues[0]` after the stable descending sort: the first-occurring
suit no other suit sorts strictly before. -/
def topSuitFirst (hand : List Card) : List Suit → Option Suit
  | [] => none
  | x :: xs =>
    (topSuitFirst hand xs).elim (some x) fun y =>
      if suitGTb hand y x then some y else some x

/-- `suitValues[suitValues.length - 1]` after the stable descending sort:
the last-occurring suit that sorts after every other suit. -/
def bottomSuitLast (hand : List Card) : List Suit → Option Suit
  | [] => none
  | x :: xs =>
    (bottomSuitLast hand xs).elim (some x) fun y =>
      if suitGTb hand y x then some x else some y

/-- Step 3 of `selectCardToDiscard` (AIPlayer.js:302-320): take the weakest
suit (fewest cards, then lowest total) and return the hand index of its
lowest-value card (first occurrence on ties, as the loop uses a strict
comparison). -/
def selectStep3 (hand : List Card) : Int :=
  (bottomSuitLast hand (orderedKeys hand)).elim (-1) fun w =>
    (argminFirst (fun p => rankOrder p.2.rank) (groupOf hand w)).elim (-1)
      fun p => (p.1 : Int)

/-- Step 2 of `selectCardToDiscard` (AIPlayer.js:253-300): if there are at
least two suits and the two best suits (by count, then total) are within 5
points of each other with the second holding at least two cards, discard
the lowest-value card from any other suit; otherwise fall through to step
3. -/
def selectStep2 (hand : List Card) : Int :=
  let keys := orderedKeys hand
  if 2 ≤ keys.length then
    (topSuitFirst hand keys).elim (selectStep3 hand) fun best =>
      (topSuitFirst hand (keys.filter (fun s => decide (s ≠ best)))).elim
        (selectStep3 hand) fun second =>
          if suitTotal hand best ≤ suitTotal hand second + 5 ∧
              2 ≤ suitCount hand second then
            (argminFirst (fun p => rankOrder p.2.rank)
                ((keys.filter
                    (fun s => decide (s ≠ best ∧ s ≠ second))).flatMap
                  (groupOf hand))).elim (selectStep3 hand)
              fun p => (p.1 : Int)
          else selectStep3 hand
  else selectStep3 hand

/-- `AIPlayer.selectCardToDiscard(hand)` (AIPlayer.js:202-321). Returns -1
for an empty hand. Step 1: if some suit has at least 3 cards, keep the
highest-total such suit and discard the lowest-value card outside it; when
every card is of that suit, fall through to steps 2 and 3. -/
def selectCardToDiscard (hand : List Card) : Int :=
  if hand.length = 0 then -1
  else
    (argmaxFirst (suitTotal hand)
        ((orderedKeys hand).filter
          (fun s => decide (3 ≤ suitCount hand s)))).elim
      (selectStep2 hand) fun strongest =>
        (argminFirst (fun p => rankOrder p.2.rank)
            ((withIdx hand).filter
              (fun p => decide (¬ p.2.suit = strongest)))).elim
          (selectStep2 hand) fun p => (p.1 : Int)

/-- `Deck.drawCard()`: `this.cards.pop()` removes and returns the element
at the end of the array; on an empty array `pop` returns `undefined`
(modelled as `none`) and leaves the array unchanged. No exception is
thrown. -/
def drawCard (cards : List Card) : Option Card × List Card :=
  (cards.getLast?, cards.dropLast)

/-- The 52-card pool built by the `Deck` constructor:
`suits.flatMap(suit => ranks.map((rank, i) => new Card(...)))` followed by
`.slice(0, 52)`, which is the identity on the 4 × 13 = 52 cards. `shuffle`
is an in-place Fisher-Yates permutation; theorems about the round quantify
over an arbitrary 52-card deck, so the permutation itself is not
modelled. -/
def buildDeck : List Card :=
  allSuits.flatMap (fun st =>
    [Rank.A, .r2, .r3, .r4, .r5, .r6, .r7, .r8, .r9, .r10, .J, .Q, .K].map
      (fun r => { suit := st, rank := r }))

/-- The mutable game data touched by the turn logic: `gameState` fields
(`GameState` of `cardTypes/index.js` plus the flags installed by
`GameController`'s constructor and `Game.js`), the deck array of the `Deck`
object, and the card list of the player-1 hand container (whose sprites
carry the cards the human actually holds). `hand1` is
`gameState.players[0].hand`, `hand2` is `gameState.players[1].hand`;
Player 2's hand container always mirrors `hand2`, so it is not duplicated
here. -/
structure GState where
  deck : List Card
  discardPile : List Card
  hand1 : List Card
  hand2 : List Card
  hand1Sprites : List Card
  currentPlayerIndex : Nat
  player1HasDrawn : Bool
  player1HasDiscarded : Bool
  player2HasDrawn : Bool
  player2HasDiscarded : Bool
  isAnimating : Bool
  isDealingCards : Bool
deriving Repr

/-- The fresh state built by `Game`'s constructor / `restartGame`: empty
hands and discard pile, all flags cleared, Player 1 to move. -/
def initState (deck : List Card) : GState :=
  { deck := deck
    discardPile := []
    hand1 := []
    hand2 := []
    hand1Sprites := []
    currentPlayerIndex := 0
    player1HasDrawn := false
    player1HasDiscarded := false
    player2HasDrawn := false
    player2HasDiscarded := false
    isAnimating := false
    isDealingCards := false }

/-- One dealt card of `GameController.dealCardsOneByOne`: draw from the
deck (guarded by a non-empty deck container, which mirrors the deck array)
and push onto the hand of player `playerIdx` (`cardCount % 2`). Player 1's
card also becomes a sprite of the player-1 hand container. -/
def dealOne (playerIdx : Nat) (s : GState) : GState :=
  (drawCard s.deck).1.elim s fun c =>
    if playerIdx = 0 then
      { s with deck := (drawCard s.deck).2
               hand1 := s.hand1 ++ [c]
               hand1Sprites := s.hand1Sprites ++ [c] }
    else
      { s with deck := (drawCard s.deck).2
               hand2 := s.hand2 ++ [c] }

/-- `GameController.addCardToDiscardPileFromDeck`: move the top deck card
onto the discard pile (guarded by a non-empty deck container). -/
def addCardToDiscardPileFromDeck (s : GState) : GState :=
  (drawCard s.deck).1.elim s fun c =>
    { s with deck := (drawCard s.deck).2
             discardPile := s.discardPile ++ [c] }

/-- `GameController.dealCardsOneByOne`: six cards dealt alternately
starting with Player 1, then one card to the discard pile. The animation
flags are set during the deal and cleared when it completes, so the net
state keeps them false. -/
def dealCardsOneByOne (s : GState) : GState :=
  addCardToDiscardPileFromDeck
    (dealOne 1 (dealOne 0 (dealOne 1 (dealOne 0 (dealOne 1 (dealOne 0 s))))))

/-- `GameController.drawCardForPlayer1`: rejected (state unchanged) when
Player 1 has already drawn, when it is not Player 1's turn, or while an
animation runs; otherwise pops the deck into Player 1's hand (array and
sprite container) and sets the per-turn flags. `isAnimating` is raised
during the animation and cleared at its end, so the net state keeps it
unchanged. -/
def drawCardForPlayer1 (s : GState) : GState :=
  if s.player1HasDrawn ∨ s.currentPlayerIndex ≠ 0 ∨ s.isAnimating then s
  else
    (drawCard s.deck).1.elim s fun c =>
      { s with deck := (drawCard s.deck).2
               hand1 := s.hand1 ++ [c]
               hand1Sprites := s.hand1Sprites ++ [c]
               player1HasDrawn := true
               player1HasDiscarded := false }

/-- `GameController.drawCardFromDiscardPile`: same guards as
`drawCardForPlayer1`; pops the top of `gameState.discardPile` into
Player 1's hand. -/
def drawCardFromDiscardPile (s : GState) : GState :=
  if s.player1HasDrawn ∨ s.currentPlayerIndex ≠ 0 ∨ s.isAnimating then s
  else
    (drawCard s.discardPile).1.elim s fun c =>
      { s with discardPile := (drawCard s.discardPile).2
               hand1 := s.hand1 ++ [c]
               hand1Sprites := s.hand1Sprites ++ [c]
               player1HasDrawn := true
               player1HasDiscarded := false }

/-- `GameController.discardCard(cardSprite)`: rejected when Player 1 has
not drawn, has already discarded, is not the active player, or an
animation runs. Otherwise the sprite (always a member of the player-1 hand
container, here addressed by its index `i`) is removed from the container
and its card pushed onto `gameState.discardPile`. NOTE: the source never
removes the card from `gameState.players[0].hand` — only the sprite
container shrinks; `hand1` is left as it was. -/
def discardCard (i : Nat) (s : GState) : GState :=
  if (¬ s.player1HasDrawn) ∨ s.player1HasDiscarded ∨
      s.currentPlayerIndex ≠ 0 ∨ s.isAnimating then s
  else
    (s.hand1Sprites[i]?).elim s fun c =>
      { s with hand1Sprites := s.hand1Sprites.eraseIdx i
               discardPile := s.discardPile ++ [c]
               player1HasDiscarded := true }

/-- The End Turn button callback of `Game.js`: guarded only by "it is
Player 1's turn and no dealing/animation is in progress"; on success it
hands the turn to Player 2 and resets Player 1's per-turn flags (the
`isAnimating` toggle raised for the transition is cleared again before
Player 2 moves). The `hasDrawn`/`hasDiscarded` flags are NOT consulted. -/
def endTurnClick (s : GState) : GState :=
  if s.currentPlayerIndex = 0 ∧ (¬ s.isDealingCards) ∧ (¬ s.isAnimating) then
    { s with currentPlayerIndex := 1
             player1HasDrawn := false
             player1HasDiscarded := false }
  else s

/-- `GameController.updateEndTurnButtonState`: the End Turn button is made
interactive exactly when it is Player 1's turn and the player-1 hand
container does not hold 4 cards. -/
def updateEndTurnButtonState (s : GState) : Bool :=
  decide (s.currentPlayerIndex = 0) && decide (s.hand1Sprites.length ≠ 4)

/-- `Player2Controller.drawFromDeck`: guarded by a non-empty deck
container; pops the deck into Player 2's hand. -/
def player2DrawFromDeck (s : GState) : GState :=
  (drawCard s.deck).1.elim s fun c =>
    { s with deck := (drawCard s.deck).2
             hand2 := s.hand2 ++ [c] }

/-- `Player2Controller.drawFromDiscardPile`: guarded by a non-empty
discard pile; pops its top into Player 2's hand. -/
def player2DrawFromDiscardPile (s : GState) : GState :=
  (drawCard s.discardPile).1.elim s fun c =>
    { s with discardPile := (drawCard s.discardPile).2
             hand2 := s.hand2 ++ [c] }

/-- `Player2Controller.drawCard`: draw from the discard pile when the AI
asked for it and the pile is non-empty, otherwise from the deck; then set
Player 2's per-turn flags. The AI decision itself is a parameter. -/
def player2DrawCard (fromDiscard : Bool) (s : GState) : GState :=
  let s' := if fromDiscard ∧ s.discardPile ≠ [] then
      player2DrawFromDiscardPile s
    else player2DrawFromDeck s
  { s' with player2HasDrawn := true, player2HasDiscarded := false }

/-- `Player2Controller.discardCard`: returns unchanged on an empty hand or
when `selectCardToDiscard` returns -1; otherwise splices the selected card
out of `gameState.players[1].hand` and pushes it onto the discard pile
(the Player 2 hand container mirrors `hand2`, so the sprite at that index
carries the same card). -/
def player2DiscardCard (s : GState) : GState :=
  if s.hand2.length = 0 then s
  else
    let idx := selectCardToDiscard s.hand2
    if idx = -1 then s
    else
      (s.hand2[idx.toNat]?).elim s fun c =>
        { s with hand2 := s.hand2.eraseIdx idx.toNat
                 discardPile := s.discardPile ++ [c] }

/-- End of `Player2Controller.performTurn` after a normal discard: flags
flipped and the turn handed back to Player 1. -/
def player2EndTurn (s : GState) : GState :=
  { s with player2HasDrawn := false
           player2HasDiscarded := true
           currentPlayerIndex := 0 }

/-- The number of cards in the game-state data structures: deck, discard
pile and both players' `hand` arrays. -/
def cardCount (s : GState) : Nat :=
  s.deck.length + s.discardPile.length + s.hand1.length + s.hand2.length

/-- The number of cards as presented on screen, with Player 1's hand
counted through its sprite container. -/
def spriteCardCount (s : GState) : Nat :=
  s.deck.length + s.discardPile.length + s.hand1Sprites.length +
    s.hand2.length

section ScoringLemmas

theorem calculatePointsBySuit_append (hand : List Card) (c : Card) :
    calculatePointsBySuit (hand ++ [c]) =
      addToSuit (calculatePointsBySuit hand) c.suit (rankOrder c.rank) := by
  simp [calculatePointsBySuit, List.foldl_append]

theorem orderedKeys_append (hand : List Card) (c : Card) :
    orderedKeys (hand ++ [c]) =
      if c.suit ∈ orderedKeys hand then orderedKeys hand
      else orderedKeys hand ++ [c.suit] := by
  simp [orderedKeys, List.foldl_append]

theorem suitPoints_append (hand : List Card) (c : Card) (s : Suit) :
    suitPoints (hand ++ [c]) s =
      suitPoints hand s + (if c.suit = s then rankOrder c.rank else 0) := by
  by_cases h : c.suit = s <;>
    simp [suitPoints, List.filter_append, h, List.foldl_append]

theorem mem_orderedKeys (hand : List Card) (s : Suit) :
    s ∈ orderedKeys hand ↔ ∃ c ∈ hand, c.suit = s := by
  induction hand using List.reverseRecOn with
  | nil => simp [orderedKeys]
  | append_singleton hand c ih =>
    rw [orderedKeys_append]
    by_cases hmem : c.suit ∈ orderedKeys hand
    · simp only [hmem, if_true, ih]
      constructor
      · rintro ⟨d, hd, rfl⟩
        exact ⟨d, by simp [hd], rfl⟩
      · rintro ⟨d, hd, rfl⟩
        rcases List.mem_append.mp hd with h1 | h1
        · exact ⟨d, h1, rfl⟩
        · have : d = c := by simpa using h1
          subst this
          exact ih.mp hmem
    · simp only [hmem, if_false, List.mem_append, ih, List.mem_singleton]
      constructor
      · rintro (⟨d, hd, rfl⟩ | rfl)
        · exact ⟨d, by simp [hd], rfl⟩
        · exact ⟨c, by simp, rfl⟩
      · rintro ⟨d, hd, rfl⟩
        rcases hd with h1 | h1
        · exact Or.inl ⟨d, h1, rfl⟩
        · subst h1
          exact Or.inr rfl

theorem orderedKeys_nodup (hand : List Card) : (orderedKeys hand).Nodup := by
  induction hand using List.reverseRecOn with
  | nil => simp [orderedKeys]
  | append_singleton hand c ih =>
    rw [orderedKeys_append]
    by_cases hmem : c.suit ∈ orderedKeys hand
    · simpa [hmem] using ih
    · simp only [hmem, if_false]
      exact List.Nodup.append ih (List.nodup_singleton _)
        (by simpa using hmem)

theorem addToSuit_map (keys : List Suit) (g : Suit → Nat) (t : Suit) (v : Nat)
    (hnd : keys.Nodup) :
    addToSuit (keys.map (fun s => (s, g s))) t v =
      if t ∈ keys then keys.map (fun s => (s, g s + if s = t then v else 0))
      else keys.map (fun s => (s, g s)) ++ [(t, v)] := by
  induction keys with
  | nil => simp [addToSuit]
  | cons k ks ih =>
    have hk_nd : k ∉ ks := (List.nodup_cons.mp hnd).1
    have hks_nd : ks.Nodup := (List.nodup_cons.mp hnd).2
    by_cases hk : k = t
    · subst hk
      simp only [List.map_cons, addToSuit, if_pos rfl, List.mem_cons, true_or,
        if_true, if_pos rfl]
      congr 1
      refine (List.map_congr_left ?_).symm
      intro s hs
      have : s ≠ k := fun h => hk_nd (h ▸ hs)
      simp [this]
    · simp only [List.map_cons, addToSuit, if_neg hk, ih hks_nd]
      by_cases ht : t ∈ ks
      · simp [ht, hk, Ne.symm hk]
      · have : ¬ t ∈ k :: ks := by simp [ht, Ne.symm hk]
        simp [ht, this, hk, Ne.symm hk]

theorem calculatePointsBySuit_eq (hand : List Card) :
    calculatePointsBySuit hand =
      (orderedKeys hand).map (fun s => (s, suitPoints hand s)) := by
  induction hand using List.reverseRecOn with
  | nil => simp [calculatePointsBySuit, orderedKeys]
  | append_singleton hand c ih =>
    rw [calculatePointsBySuit_append, ih,
      addToSuit_map _ _ _ _ (orderedKeys_nodup hand), orderedKeys_append]
    by_cases hmem : c.suit ∈ orderedKeys hand
    · simp only [hmem, if_true]
      refine List.map_congr_left ?_
      intro s _
      rw [suitPoints_append]
      by_cases hs : s = c.suit
      · simp [hs]
      · have hcs : ¬ c.suit = s := fun h => hs h.symm
        simp [hs, hcs]
    · simp only [hmem, if_false, List.map_append, List.map_cons, List.map_nil]
      congr 1
      · refine List.map_congr_left ?_
        intro s hs
        have hne : ¬ c.suit = s := fun h => hmem (h ▸ hs)
        rw [suitPoints_append]
        simp [hne]
      · have hzero : suitPoints hand c.suit = 0 := by
          have : ¬ ∃ d ∈ hand, d.suit = c.suit := fun h =>
            hmem ((mem_orderedKeys hand c.suit).mpr h)
          have hfil : hand.filter (fun d => decide (d.suit = c.suit)) = [] := by
            rw [List.filter_eq_nil_iff]
            intro d hd
            simp only [decide_eq_true_eq]
            exact fun hh => this ⟨d, hd, hh⟩
          simp [suitPoints, hfil]
        rw [suitPoints_append]
        simp [hzero]

theorem findSuit_map (keys : List Suit) (g : Suit → Nat) (t : Suit) :
    findSuit (keys.map (fun s => (s, g s))) t =
      if t ∈ keys then some (g t) else none := by
  induction keys with
  | nil => simp [findSuit]
  | cons k ks ih =>
    by_cases h : k = t
    · subst h
      simp [findSuit]
    · simp [findSuit, h, ih, Ne.symm h]

theorem suitPoints_eq_zero (hand : List Card) (s : Suit)
    (h : ¬ ∃ c ∈ hand, c.suit = s) : suitPoints hand s = 0 := by
  have hfil : hand.filter (fun c => decide (c.suit = s)) = [] := by
    rw [List.filter_eq_nil_iff]
    intro c hc
    simp only [decide_eq_true_eq]
    exact fun hh => h ⟨c, hc, hh⟩
  simp [suitPoints, hfil]

theorem le_listMax_of_mem {x : Nat} {l : List Nat} (h : x ∈ l) :
    x ≤ listMax l := by
  induction l with
  | nil => cases h
  | cons y ys ih =>
    rcases List.mem_cons.mp h with rfl | h1
    · exact le_max_left _ _
    · exact le_trans (ih h1) (le_max_right _ _)

theorem listMax_le {l : List Nat} {b : Nat} (h : ∀ x ∈ l, x ≤ b) :
    listMax l ≤ b := by
  induction l with
  | nil => exact Nat.zero_le b
  | cons y ys ih =>
    exact max_le (h y (by simp)) (ih fun x hx => h x (by simp [hx]))

theorem mem_allSuits (s : Suit) : s ∈ allSuits := by
  cases s <;> simp [allSuits]

end ScoringLemmas

/-- C4: `bestScore(hand)` equals the maximum over suits of the per-suit
rank-value sums of the hand, and equals 0 when the hand is empty. -/
theorem c4_bestScore :
    (∀ hand : List Card, bestScore hand = bestScoreSpec hand) ∧
      bestScore [] = 0 := by
  constructor
  · intro hand
    by_cases hemp : hand.isEmpty
    · have : hand = [] := List.isEmpty_iff.mp hemp
      subst this
      have : ∀ s ∈ allSuits, suitPoints [] s = 0 := by
        intro s _
        simp [suitPoints]
      simp only [bestScore, bestScoreSpec, List.isEmpty_nil, if_true]
      symm
      refine Nat.le_antisymm (listMax_le ?_) (Nat.zero_le _)
      intro x hx
      rcases List.mem_map.mp hx with ⟨s, hs, rfl⟩
      simp [this s hs]
    · rw [bestScore, if_neg hemp, calculatePointsBySuit_eq, List.map_map]
      have hmapeq :
          (Prod.snd ∘ fun s => (s, suitPoints hand s)) = suitPoints hand := by
        funext s
        rfl
      rw [hmapeq]
      refine Nat.le_antisymm (listMax_le ?_) (listMax_le ?_)
      · intro x hx
        rcases List.mem_map.mp hx with ⟨s, _, rfl⟩
        exact le_listMax_of_mem
          (List.mem_map.mpr ⟨s, mem_allSuits s, rfl⟩)
      · intro x hx
        rcases List.mem_map.mp hx with ⟨s, _, rfl⟩
        by_cases hs : s ∈ orderedKeys hand
        · exact le_listMax_of_mem (List.mem_map.mpr ⟨s, hs, rfl⟩)
        · have : suitPoints hand s = 0 := by
            refine suitPoints_eq_zero hand s fun h => hs ?_
            exact (mem_orderedKeys hand s).mpr h
          simp [this]
  · rfl

/-- C5: `calculatePointsBySuit` (the source of the spec's `scoreBySuit`)
maps each suit present in the hand to the sum of its cards' rank values and
omits absent suits, with rank values A=11, 2..9 face value, 10/J/Q/K=10. -/
theorem c5_scoreBySuit :
    (∀ (hand : List Card) (s : Suit),
        findSuit (calculatePointsBySuit hand) s =
          if ∃ c ∈ hand, c.suit = s then some (suitPoints hand s) else none) ∧
      rankOrder .A = 11 ∧ rankOrder .r2 = 2 ∧ rankOrder .r3 = 3 ∧
      rankOrder .r4 = 4 ∧ rankOrder .r5 = 5 ∧ rankOrder .r6 = 6 ∧
      rankOrder .r7 = 7 ∧ rankOrder .r8 = 8 ∧ rankOrder .r9 = 9 ∧
      rankOrder .r10 = 10 ∧ rankOrder .J = 10 ∧ rankOrder .Q = 10 ∧
      rankOrder .K = 10 := by
  refine ⟨?_, rfl, rfl, rfl, rfl, rfl, rfl, rfl, rfl, rfl, rfl, rfl, rfl, rfl⟩
  intro hand s
  rw [calculatePointsBySuit_eq, findSuit_map]
  by_cases h : ∃ c ∈ hand, c.suit = s
  · simp [h, (mem_orderedKeys hand s).mpr h]
  · have : ¬ s ∈ orderedKeys hand := fun hh => h ((mem_orderedKeys hand s).mp hh)
    simp [h, this]

section KnockLemmas

theorem bestScore_of_ne_nil {hand : List Card} (h : ¬ hand.isEmpty) :
    bestScore hand = listMax ((calculatePointsBySuit hand).map Prod.snd) := by
  simp [bestScore, h]

theorem length_three_not_empty {hand : List Card} (h : hand.length = 3) :
    ¬ hand.isEmpty = true := by
  cases hand with
  | nil => simp at h
  | cons a l => simp

end KnockLemmas

/-- C7: on any 3-card hand whose best-suit score is at least 25,
`shouldKnock` returns true regardless of the opponent's visible cards and
of the discard-pile depth. -/
theorem c7_knock_strong (hand : List Card) (oppHand : List OppCard)
    (discardLen : Nat) (hlen : hand.length = 3)
    (hscore : 25 ≤ bestScore hand) :
    shouldKnock hand oppHand discardLen = true := by
  have hne := length_three_not_empty hlen
  rw [bestScore_of_ne_nil hne] at hscore
  unfold shouldKnock
  simp only [hlen]
  norm_num
  exact Or.inr (Or.inl hscore)

/-- Witness for C7 at the hand A-K-Q of hearts (best score 31). -/
theorem c7_knock_strong_witness :
    shouldKnock [⟨.hearts, .A⟩, ⟨.hearts, .K⟩, ⟨.hearts, .Q⟩] [] 0 = true :=
  c7_knock_strong [⟨.hearts, .A⟩, ⟨.hearts, .K⟩, ⟨.hearts, .Q⟩] [] 0
    (by decide) (by decide)

/-- C8 counterexample: with one of the opponent's three cards visible
(fewer than `opponentHandSize - 1 = 2`), the source estimates the opponent
from the visible cards (here 5 points), not from the claimed 21/19 table.
At discard depth 4, own best score 8 and visible 5-of-hearts, the code
knocks (8 ≥ 5 + 2) although the claim's formula (8 ≥ 21 + 2) says not to. -/
theorem c8_counterexample :
    shouldKnock [⟨.hearts, .r5⟩, ⟨.hearts, .r3⟩, ⟨.spades, .r2⟩]
        [⟨⟨.hearts, .r5⟩, true⟩, ⟨⟨.spades, .K⟩, false⟩,
          ⟨⟨.spades, .Q⟩, false⟩] 4 = true ∧
      bestScore [⟨.hearts, .r5⟩, ⟨.hearts, .r3⟩, ⟨.spades, .r2⟩] < 25 ∧
      (([⟨⟨.hearts, .r5⟩, true⟩, ⟨⟨.spades, .K⟩, false⟩,
          ⟨⟨.spades, .Q⟩, false⟩] : List OppCard).filter
            (fun c => c.visible)).length <
        ([⟨⟨.hearts, .r5⟩, true⟩, ⟨⟨.spades, .K⟩, false⟩,
          ⟨⟨.spades, .Q⟩, false⟩] : List OppCard).length - 1 ∧
      ¬ (21 + 2 ≤ bestScore [⟨.hearts, .r5⟩, ⟨.hearts, .r3⟩,
          ⟨.spades, .r2⟩]) := by
  decide

/-- C8 as amended: for a 3-card hand with best score below 25, the 21/19
estimate (21 iff more than 3 discards) and the staged thresholds (flat 26
below depth 3, estimate+2 below depth 6, estimate+1 from depth 6 on)
apply only when NONE of the opponent's cards are visible; with some but
fewer than `opponentHandSize - 1` visible cards the same staged
thresholds apply, but with the estimate taken from the visible cards'
best-suit score instead of the 21/19 table. -/
theorem c8_amended (hand : List Card) (oppHand : List OppCard)
    (discardLen : Nat) (hlen : hand.length = 3)
    (hscore : bestScore hand < 25) :
    ((oppHand.filter (fun c => c.visible)).isEmpty →
      shouldKnock hand oppHand discardLen =
        stageDecision (bestScore hand)
          (if 3 < discardLen then 21 else 19) discardLen) ∧
    (¬ (oppHand.filter (fun c => c.visible)).isEmpty →
      ((oppHand.filter (fun c => c.visible)).map (fun c => c.card)).length <
          oppHand.length - 1 →
      shouldKnock hand oppHand discardLen =
        stageDecision (bestScore hand)
          (bestScore ((oppHand.filter (fun c => c.visible)).map
            (fun c => c.card))) discardLen) := by
  have hne := length_three_not_empty hlen
  rw [bestScore_of_ne_nil hne] at hscore
  have h31 : ¬ listMax ((calculatePointsBySuit hand).map Prod.snd) = 31 := by
    omega
  have h25 : ¬ 25 ≤ listMax ((calculatePointsBySuit hand).map Prod.snd) := by
    omega
  constructor
  · intro hvis
    have hfil : oppHand.filter (fun c => c.visible) = [] :=
      List.isEmpty_iff.mp hvis
    rw [bestScore_of_ne_nil hne]
    unfold shouldKnock
    simp [hlen, hfil, h31, h25]
  · intro hvis hlt
    have hfne : oppHand.filter (fun c => c.visible) ≠ [] := by
      simpa [List.isEmpty_iff] using hvis
    have hvne : (oppHand.filter (fun c => c.visible)).map
        (fun c => c.card) ≠ [] := by
      simpa using hfne
    have hvisne : ¬ ((oppHand.filter (fun c => c.visible)).map
        (fun c => c.card)).isEmpty = true := by
      simpa [List.isEmpty_iff] using hvne
    have hfpos : 0 < (oppHand.filter (fun c => c.visible)).length :=
      List.length_pos.mpr hfne
    have hml : ((oppHand.filter (fun c => c.visible)).map
        (fun c => c.card)).length =
        (oppHand.filter (fun c => c.visible)).length := by simp
    have hinner : ¬ (oppHand.length ≤
        (oppHand.filter (fun c => c.visible)).length + 1) := by omega
    rw [bestScore_of_ne_nil hne, bestScore_of_ne_nil hvisne]
    unfold shouldKnock
    simp [hlen, h31, h25, hfpos, hinner]

/-- Witness for the amended C8 at a weak hand (best score 5): with no
visible opponent cards and empty discard pile the decision equals the
21/19-staged formula, and with one visible card of three and discard
depth 4 it equals the staged formula on the visible cards' best score. -/
theorem c8_amended_witness :
    (shouldKnock [⟨.hearts, .r2⟩, ⟨.hearts, .r3⟩, ⟨.spades, .r2⟩]
        [⟨⟨.spades, .K⟩, false⟩] 0 =
      stageDecision
        (bestScore [⟨.hearts, .r2⟩, ⟨.hearts, .r3⟩, ⟨.spades, .r2⟩])
        (if 3 < (0 : Nat) then 21 else 19) 0) ∧
    (shouldKnock [⟨.hearts, .r2⟩, ⟨.hearts, .r3⟩, ⟨.spades, .r2⟩]
        [⟨⟨.hearts, .r5⟩, true⟩, ⟨⟨.spades, .K⟩, false⟩,
          ⟨⟨.spades, .Q⟩, false⟩] 4 =
      stageDecision
        (bestScore [⟨.hearts, .r2⟩, ⟨.hearts, .r3⟩, ⟨.spades, .r2⟩])
        (bestScore ((([⟨⟨.hearts, .r5⟩, true⟩, ⟨⟨.spades, .K⟩, false⟩,
            ⟨⟨.spades, .Q⟩, false⟩] : List OppCard).filter
              (fun c => c.visible)).map (fun c => c.card))) 4) :=
  ⟨(c8_amended [⟨.hearts, .r2⟩, ⟨.hearts, .r3⟩, ⟨.spades, .r2⟩]
      [⟨⟨.spades, .K⟩, false⟩] 0 (by decide) (by decide)).1 (by decide),
    (c8_amended [⟨.hearts, .r2⟩, ⟨.hearts, .r3⟩, ⟨.spades, .r2⟩]
      [⟨⟨.hearts, .r5⟩, true⟩, ⟨⟨.spades, .K⟩, false⟩,
        ⟨⟨.spades, .Q⟩, false⟩] 4 (by decide) (by decide)).2
      (by decide) (by decide)⟩

section SelectLemmas

variable {α : Type} {key : α → Nat}

theorem argmaxFirst_mem :
    ∀ {l : List α} {x : α}, argmaxFirst key l = some x → x ∈ l := by
  intro l
  induction l with
  | nil => intro x h; simp [argmaxFirst] at h
  | cons a as ih =>
    intro x h
    cases hrec : argmaxFirst key as with
    | none =>
      rw [argmaxFirst, hrec, Option.elim_none] at h
      exact (Option.some_inj.mp h) ▸ List.mem_cons_self a as
    | some y =>
      rw [argmaxFirst, hrec, Option.elim_some] at h
      by_cases hk : key a < key y
      · rw [if_pos hk] at h
        exact List.mem_cons_of_mem a (ih ((Option.some_inj.mp h) ▸ hrec))
      · rw [if_neg hk] at h
        exact (Option.some_inj.mp h) ▸ List.mem_cons_self a as

theorem argmaxFirst_some {l : List α} (h : l ≠ []) :
    ∃ x, argmaxFirst key l = some x := by
  cases l with
  | nil => exact absurd rfl h
  | cons a as =>
    rw [argmaxFirst]
    cases argmaxFirst key as with
    | none => exact ⟨a, rfl⟩
    | some y =>
      rw [Option.elim_some]
      by_cases hk : key a < key y
      · exact ⟨y, by rw [if_pos hk]⟩
      · exact ⟨a, by rw [if_neg hk]⟩

theorem argmaxFirst_ne_none {l : List α} (h : l ≠ []) :
    argmaxFirst key l ≠ none := by
  obtain ⟨x, hx⟩ := @argmaxFirst_some _ key _ h
  simp [hx]

theorem argmaxFirst_le :
    ∀ {l : List α} {x : α}, argmaxFirst key l = some x →
      ∀ y ∈ l, key y ≤ key x := by
  intro l
  induction l with
  | nil => intro x h; simp [argmaxFirst] at h
  | cons a as ih =>
    intro x h y hy
    cases hrec : argmaxFirst key as with
    | none =>
      have has : as = [] := by
        by_contra hne
        exact @argmaxFirst_ne_none _ key _ hne hrec
      subst has
      rw [argmaxFirst, hrec, Option.elim_none] at h
      have hx : a = x := Option.some_inj.mp h
      rcases List.mem_cons.mp hy with rfl | hy2
      · exact hx ▸ le_refl _
      · cases hy2
    | some z =>
      rw [argmaxFirst, hrec, Option.elim_some] at h
      by_cases hk : key a < key z
      · rw [if_pos hk] at h
        have hz : z = x := Option.some_inj.mp h
        rcases List.mem_cons.mp hy with rfl | hy2
        · exact hz ▸ le_of_lt hk
        · exact hz ▸ ih hrec y hy2
      · rw [if_neg hk] at h
        have ha : a = x := Option.some_inj.mp h
        rcases List.mem_cons.mp hy with rfl | hy2
        · exact ha ▸ le_refl _
        · exact ha ▸ le_trans (ih hrec y hy2) (le_of_not_lt hk)

theorem argmaxFirst_eq_of_unique {l : List α} {x : α} (hx : x ∈ l)
    (huniq : ∀ y ∈ l, y ≠ x → key y < key x) :
    argmaxFirst key l = some x := by
  obtain ⟨z, hz⟩ := @argmaxFirst_some _ key _ (List.ne_nil_of_mem hx)
  have hzm := argmaxFirst_mem hz
  by_cases hzx : z = x
  · exact hzx ▸ hz
  · exact absurd (argmaxFirst_le hz x hx) (not_le_of_lt (huniq z hzm hzx))

theorem argminFirst_mem :
    ∀ {l : List α} {x : α}, argminFirst key l = some x → x ∈ l := by
  intro l
  induction l with
  | nil => intro x h; simp [argminFirst] at h
  | cons a as ih =>
    intro x h
    cases hrec : argminFirst key as with
    | none =>
      rw [argminFirst, hrec, Option.elim_none] at h
      exact (Option.some_inj.mp h) ▸ List.mem_cons_self a as
    | some y =>
      rw [argminFirst, hrec, Option.elim_some] at h
      by_cases hk : key y < key a
      · rw [if_pos hk] at h
        exact List.mem_cons_of_mem a (ih ((Option.some_inj.mp h) ▸ hrec))
      · rw [if_neg hk] at h
        exact (Option.some_inj.mp h) ▸ List.mem_cons_self a as

theorem argminFirst_some {l : List α} (h : l ≠ []) :
    ∃ x, argminFirst key l = some x := by
  cases l with
  | nil => exact absurd rfl h
  | cons a as =>
    rw [argminFirst]
    cases argminFirst key as with
    | none => exact ⟨a, rfl⟩
    | some y =>
      rw [Option.elim_some]
      by_cases hk : key y < key a
      · exact ⟨y, by rw [if_pos hk]⟩
      · exact ⟨a, by rw [if_neg hk]⟩

theorem argminFirst_ne_none {l : List α} (h : l ≠ []) :
    argminFirst key l ≠ none := by
  obtain ⟨x, hx⟩ := @argminFirst_some _ key _ h
  simp [hx]

theorem argminFirst_le :
    ∀ {l : List α} {x : α}, argminFirst key l = some x →
      ∀ y ∈ l, key x ≤ key y := by
  intro l
  induction l with
  | nil => intro x h; simp [argminFirst] at h
  | cons a as ih =>
    intro x h y hy
    cases hrec : argminFirst key as with
    | none =>
      have has : as = [] := by
        by_contra hne
        exact @argminFirst_ne_none _ key _ hne hrec
      subst has
      rw [argminFirst, hrec, Option.elim_none] at h
      have hx : a = x := Option.some_inj.mp h
      rcases List.mem_cons.mp hy with rfl | hy2
      · exact hx ▸ le_refl _
      · cases hy2
    | some z =>
      rw [argminFirst, hrec, Option.elim_some] at h
      by_cases hk : key z < key a
      · rw [if_pos hk] at h
        have hz : z = x := Option.some_inj.mp h
        rcases List.mem_cons.mp hy with rfl | hy2
        · exact hz ▸ le_of_lt hk
        · exact hz ▸ ih hrec y hy2
      · rw [if_neg hk] at h
        have ha : a = x := Option.some_inj.mp h
        rcases List.mem_cons.mp hy with rfl | hy2
        · exact ha ▸ le_refl _
        · exact ha ▸ le_trans (le_of_not_lt hk) (ih hrec y hy2)

theorem bottomSuitLast_mem {hand : List Card} :
    ∀ {l : List Suit} {w : Suit}, bottomSuitLast hand l = some w → w ∈ l := by
  intro l
  induction l with
  | nil => intro w h; simp [bottomSuitLast] at h
  | cons a as ih =>
    intro w h
    cases hrec : bottomSuitLast hand as with
    | none =>
      rw [bottomSuitLast, hrec, Option.elim_none] at h
      exact (Option.some_inj.mp h) ▸ List.mem_cons_self a as
    | some y =>
      rw [bottomSuitLast, hrec, Option.elim_some] at h
      by_cases hk : suitGTb hand y a
      · rw [if_pos hk] at h
        exact (Option.some_inj.mp h) ▸ List.mem_cons_self a as
      · rw [if_neg hk] at h
        exact List.mem_cons_of_mem a (ih ((Option.some_inj.mp h) ▸ hrec))

theorem bottomSuitLast_some {hand : List Card} {l : List Suit} (h : l ≠ []) :
    ∃ w, bottomSuitLast hand l = some w := by
  cases l with
  | nil => exact absurd rfl h
  | cons a as =>
    rw [bottomSuitLast]
    cases bottomSuitLast hand as with
    | none => exact ⟨a, rfl⟩
    | some y =>
      rw [Option.elim_some]
      by_cases hk : suitGTb hand y a
      · exact ⟨a, by rw [if_pos hk]⟩
      · exact ⟨y, by rw [if_neg hk]⟩

theorem mem_withIdxFrom :
    ∀ {l : List Card} {n : Nat} {p : Nat × Card}, p ∈ withIdxFrom n l →
      ∃ j, ∃ hj : j < l.length, p.1 = n + j ∧ p.2 = l.get ⟨j, hj⟩ := by
  intro l
  induction l with
  | nil => intro n p h; simp [withIdxFrom] at h
  | cons c rest ih =>
    intro n p h
    rw [withIdxFrom] at h
    rcases List.mem_cons.mp h with rfl | h2
    · exact ⟨0, by simp, by simp, rfl⟩
    · obtain ⟨j, hj, h1, h2⟩ := ih h2
      exact ⟨j + 1, by simpa using Nat.succ_lt_succ hj,
        by omega, by simpa using h2⟩

theorem withIdxFrom_mem :
    ∀ {l : List Card} {j : Nat} (hj : j < l.length) (n : Nat),
      (n + j, l.get ⟨j, hj⟩) ∈ withIdxFrom n l := by
  intro l
  induction l with
  | nil => intro j hj n; simp at hj
  | cons c rest ih =>
    intro j hj n
    rw [withIdxFrom]
    cases j with
    | zero => simp
    | succ k =>
      have hk : k < rest.length := Nat.lt_of_succ_lt_succ hj
      have := ih hk (n + 1)
      refine List.mem_cons_of_mem _ ?_
      have harith : n + (k + 1) = (n + 1) + k := by omega
      simpa [harith] using this

theorem mem_withIdx {hand : List Card} {p : Nat × Card}
    (h : p ∈ withIdx hand) :
    ∃ hj : p.1 < hand.length, p.2 = hand.get ⟨p.1, hj⟩ := by
  obtain ⟨j, hj, h1, h2⟩ := mem_withIdxFrom h
  have : p.1 = j := by omega
  subst this
  exact ⟨hj, h2⟩

theorem withIdx_mem {hand : List Card} {j : Nat} (hj : j < hand.length) :
    (j, hand.get ⟨j, hj⟩) ∈ withIdx hand := by
  have := withIdxFrom_mem hj 0
  simpa [withIdx] using this

theorem mem_groupOf {hand : List Card} {s : Suit} {p : Nat × Card}
    (h : p ∈ groupOf hand s) : p ∈ withIdx hand ∧ p.2.suit = s := by
  rw [groupOf, List.mem_filter] at h
  exact ⟨h.1, by simpa using h.2⟩

theorem groupOf_ne_nil {hand : List Card} {s : Suit}
    (h : ∃ c ∈ hand, c.suit = s) : groupOf hand s ≠ [] := by
  obtain ⟨c, hc, hcs⟩ := h
  obtain ⟨⟨j, hj⟩, hn⟩ := List.mem_iff_get.mp hc
  have hmem : (j, c) ∈ groupOf hand s := by
    rw [groupOf, List.mem_filter]
    constructor
    · have := withIdx_mem hj
      rw [hn] at this
      exact this
    · simpa using hcs
  exact List.ne_nil_of_mem hmem

theorem exists_card_of_suitCount_pos {hand : List Card} {s : Suit}
    (h : 0 < suitCount hand s) : ∃ c ∈ hand, c.suit = s := by
  obtain ⟨p, hp⟩ := List.exists_mem_of_length_pos h
  obtain ⟨hpw, hps⟩ := mem_groupOf hp
  obtain ⟨hj, hpe⟩ := mem_withIdx hpw
  have hmem : hand.get ⟨p.1, hj⟩ ∈ hand := List.get_mem hand p.1 hj
  exact ⟨p.2, hpe ▸ hmem, hps⟩

theorem orderedKeys_ne_nil {hand : List Card} (h : hand ≠ []) :
    orderedKeys hand ≠ [] := by
  cases hand with
  | nil => exact absurd rfl h
  | cons c rest =>
    exact List.ne_nil_of_mem
      ((mem_orderedKeys (c :: rest) c.suit).mpr ⟨c, by simp, rfl⟩)

theorem selectStep3_valid {hand : List Card} (h : hand ≠ []) :
    ∃ i : Nat, selectStep3 hand = (i : Int) ∧ i < hand.length := by
  obtain ⟨w, hw⟩ := @bottomSuitLast_some hand _ (orderedKeys_ne_nil h)
  have hwmem := bottomSuitLast_mem hw
  have hwcards := (mem_orderedKeys hand w).mp hwmem
  obtain ⟨p, hp⟩ := @argminFirst_some _
    (fun p => rankOrder p.2.rank) _ (groupOf_ne_nil hwcards)
  obtain ⟨hpw, _⟩ := mem_groupOf (argminFirst_mem hp)
  obtain ⟨hlt, _⟩ := mem_withIdx hpw
  refine ⟨p.1, ?_, hlt⟩
  rw [selectStep3, hw, Option.elim_some, hp, Option.elim_some]

theorem selectStep2_valid {hand : List Card} (h : hand ≠ []) :
    ∃ i : Nat, selectStep2 hand = (i : Int) ∧ i < hand.length := by
  rw [selectStep2]
  by_cases hk2 : 2 ≤ (orderedKeys hand).length
  · rw [if_pos hk2]
    cases htop : topSuitFirst hand (orderedKeys hand) with
    | none => simpa using selectStep3_valid h
    | some best =>
      rw [Option.elim_some]
      cases htop2 : topSuitFirst hand
          ((orderedKeys hand).filter (fun s => decide (s ≠ best))) with
      | none => simpa using selectStep3_valid h
      | some second =>
        rw [Option.elim_some]
        by_cases hcond : suitTotal hand best ≤ suitTotal hand second + 5 ∧
            2 ≤ suitCount hand second
        · rw [if_pos hcond]
          cases hmin : argminFirst (fun p => rankOrder p.2.rank)
              (((orderedKeys hand).filter
                  (fun s => decide (s ≠ best ∧ s ≠ second))).flatMap
                (groupOf hand)) with
          | none => simpa using selectStep3_valid h
          | some p =>
            rw [Option.elim_some]
            have hpm := argminFirst_mem hmin
            obtain ⟨s, _, hps⟩ := List.mem_flatMap.mp hpm
            obtain ⟨hpw, _⟩ := mem_groupOf hps
            obtain ⟨hlt, _⟩ := mem_withIdx hpw
            exact ⟨p.1, rfl, hlt⟩
        · rw [if_neg hcond]
          exact selectStep3_valid h
  · rw [if_neg hk2]
    exact selectStep3_valid h

theorem selectCardToDiscard_valid {hand : List Card} (h : hand ≠ []) :
    ∃ i : Nat, selectCardToDiscard hand = (i : Int) ∧ i < hand.length := by
  have hlen : hand.length ≠ 0 := by
    cases hand with
    | nil => exact absurd rfl h
    | cons a l => simp
  rw [selectCardToDiscard, if_neg hlen]
  cases hmax : argmaxFirst (suitTotal hand)
      ((orderedKeys hand).filter (fun s => decide (3 ≤ suitCount hand s))) with
  | none => simpa using selectStep2_valid h
  | some strongest =>
    rw [Option.elim_some]
    cases hmin : argminFirst (fun p => rankOrder p.2.rank)
        ((withIdx hand).filter
          (fun p => decide (¬ p.2.suit = strongest))) with
    | none => simpa using selectStep2_valid h
    | some p =>
      rw [Option.elim_some]
      have hpm := argminFirst_mem hmin
      rw [List.mem_filter] at hpm
      obtain ⟨hlt, _⟩ := mem_withIdx hpm.1
      exact ⟨p.1, rfl, hlt⟩

end SelectLemmas

/-- C6: whenever some suit holds at least 3 cards and has strictly the
highest total among such suits, `selectCardToDiscard` returns the index of
a lowest-rank-value card among the cards not of that suit (provided an
off-suit card exists); in particular on [A-spades, K-spades, Q-spades,
2-hearts] it returns 3, the index of the 2 of hearts. -/
theorem c6_selectDiscard :
    (∀ (hand : List Card) (s₀ : Suit), 3 ≤ suitCount hand s₀ →
      (∀ s, s ≠ s₀ → 3 ≤ suitCount hand s →
        suitTotal hand s < suitTotal hand s₀) →
      (∃ j, ∃ hj : j < hand.length, (hand.get ⟨j, hj⟩).suit ≠ s₀) →
      ∃ i, ∃ hi : i < hand.length,
        selectCardToDiscard hand = (i : Int) ∧
        (hand.get ⟨i, hi⟩).suit ≠ s₀ ∧
        ∀ j (hj : j < hand.length), (hand.get ⟨j, hj⟩).suit ≠ s₀ →
          rankOrder (hand.get ⟨i, hi⟩).rank ≤
            rankOrder (hand.get ⟨j, hj⟩).rank) ∧
    selectCardToDiscard
      [⟨.spades, .A⟩, ⟨.spades, .K⟩, ⟨.spades, .Q⟩, ⟨.hearts, .r2⟩] = 3 := by
  refine ⟨?_, by decide⟩
  intro hand s₀ hcount hmax hoff
  obtain ⟨j0, hj0, hjs⟩ := hoff
  have hlen0 : ¬ hand.length = 0 := by omega
  have hexists : ∃ c ∈ hand, c.suit = s₀ :=
    exists_card_of_suitCount_pos (lt_of_lt_of_le (by norm_num) hcount)
  have hkeymem : s₀ ∈ (orderedKeys hand).filter
      (fun s => decide (3 ≤ suitCount hand s)) := by
    rw [List.mem_filter]
    exact ⟨(mem_orderedKeys hand s₀).mpr hexists, by simpa using hcount⟩
  have huniq : ∀ y ∈ (orderedKeys hand).filter
      (fun s => decide (3 ≤ suitCount hand s)),
      y ≠ s₀ → suitTotal hand y < suitTotal hand s₀ := by
    intro y hy hne
    rw [List.mem_filter] at hy
    exact hmax y hne (by simpa using hy.2)
  have hargmax := argmaxFirst_eq_of_unique hkeymem huniq
  have hoffmem : (j0, hand.get ⟨j0, hj0⟩) ∈
      (withIdx hand).filter (fun p => decide (¬ p.2.suit = s₀)) := by
    rw [List.mem_filter]
    exact ⟨withIdx_mem hj0, by simpa using hjs⟩
  obtain ⟨p, hp⟩ := @argminFirst_some _ (fun p => rankOrder p.2.rank) _
    (List.ne_nil_of_mem hoffmem)
  have hpmem := argminFirst_mem hp
  rw [List.mem_filter] at hpmem
  obtain ⟨hpw, hpdec⟩ := hpmem
  have hpsuit : ¬ p.2.suit = s₀ := by simpa using hpdec
  obtain ⟨hplt, hpeq⟩ := mem_withIdx hpw
  refine ⟨p.1, hplt, ?_, ?_, ?_⟩
  · rw [selectCardToDiscard, if_neg hlen0, hargmax, Option.elim_some, hp,
      Option.elim_some]
  · rw [← hpeq]
    exact hpsuit
  · intro j hj hjs2
    have hjmem : (j, hand.get ⟨j, hj⟩) ∈
        (withIdx hand).filter (fun p => decide (¬ p.2.suit = s₀)) := by
      rw [List.mem_filter]
      exact ⟨withIdx_mem hj, by simpa using hjs2⟩
    have hle := argminFirst_le hp _ hjmem
    rw [← hpeq]
    exact hle

/-- Witness for C6 at the hand [A-spades, K-spades, Q-spades, 2-hearts]
with the spades suit as the strong suit. -/
theorem c6_selectDiscard_witness :
    ∃ i, ∃ hi : i < ([⟨.spades, .A⟩, ⟨.spades, .K⟩, ⟨.spades, .Q⟩,
        ⟨.hearts, .r2⟩] : List Card).length,
      selectCardToDiscard [⟨.spades, .A⟩, ⟨.spades, .K⟩, ⟨.spades, .Q⟩,
          ⟨.hearts, .r2⟩] = (i : Int) ∧
      (([⟨.spades, .A⟩, ⟨.spades, .K⟩, ⟨.spades, .Q⟩,
          ⟨.hearts, .r2⟩] : List Card).get ⟨i, hi⟩).suit ≠ .spades ∧
      ∀ j (hj : j < ([⟨.spades, .A⟩, ⟨.spades, .K⟩, ⟨.spades, .Q⟩,
          ⟨.hearts, .r2⟩] : List Card).length),
        (([⟨.spades, .A⟩, ⟨.spades, .K⟩, ⟨.spades, .Q⟩,
            ⟨.hearts, .r2⟩] : List Card).get ⟨j, hj⟩).suit ≠ .spades →
        rankOrder (([⟨.spades, .A⟩, ⟨.spades, .K⟩, ⟨.spades, .Q⟩,
            ⟨.hearts, .r2⟩] : List Card).get ⟨i, hi⟩).rank ≤
          rankOrder (([⟨.spades, .A⟩, ⟨.spades, .K⟩, ⟨.spades, .Q⟩,
            ⟨.hearts, .r2⟩] : List Card).get ⟨j, hj⟩).rank :=
  c6_selectDiscard.1
    [⟨.spades, .A⟩, ⟨.spades, .K⟩, ⟨.spades, .Q⟩, ⟨.hearts, .r2⟩]
    .spades (by decide) (by intro s; cases s <;> decide)
    ⟨3, by decide, by decide⟩

/-- C10: `selectCardToDiscard` is total: it returns -1 exactly on the empty
hand, and on any non-empty hand it returns a valid index into the hand. -/
theorem c10_selectDiscard_total (hand : List Card) :
    (selectCardToDiscard hand = -1 ↔ hand = []) ∧
    (hand ≠ [] → ∃ i : Nat,
      selectCardToDiscard hand = (i : Int) ∧ i < hand.length) := by
  by_cases h : hand = []
  · subst h
    exact ⟨by simp [selectCardToDiscard], fun hne => absurd rfl hne⟩
  · obtain ⟨i, heq, hlt⟩ := selectCardToDiscard_valid h
    refine ⟨⟨fun hm1 => ?_, fun he => absurd he h⟩, fun _ => ⟨i, heq, hlt⟩⟩
    rw [heq] at hm1
    omega

/-- Witness for C10 at a singleton hand. -/
theorem c10_selectDiscard_total_witness :
    ∃ i : Nat, selectCardToDiscard [⟨.hearts, .A⟩] = (i : Int) ∧
      i < ([⟨.hearts, .A⟩] : List Card).length :=
  (c10_selectDiscard_total [⟨.hearts, .A⟩]).2 (by decide)

/-- C1 fails on the code: `GameController.discardCard` pushes the card
onto `gameState.discardPile` but never removes it from
`gameState.players[0].hand`, so after the very first Player 1 discard the
sum deck + discardPile + hands is 53, not 52 (the discarded card is
counted twice). The on-screen card count, with Player 1's hand measured by
its sprite container, stays 52. -/
theorem c1_invariant_failure :
    cardCount (initState buildDeck) = 52 ∧
    cardCount (dealCardsOneByOne (initState buildDeck)) = 52 ∧
    cardCount (drawCardForPlayer1
      (dealCardsOneByOne (initState buildDeck))) = 52 ∧
    cardCount (discardCard 3 (drawCardForPlayer1
      (dealCardsOneByOne (initState buildDeck)))) = 53 ∧
    spriteCardCount (discardCard 3 (drawCardForPlayer1
      (dealCardsOneByOne (initState buildDeck)))) = 52 := by
  decide

/-- C2 counterexample: `Deck.drawCard` on an empty deck returns the
`undefined` sentinel of `Array.prototype.pop` (here `none`) with the deck
unchanged; no `EmptyDeckError` (nor any other error) is raised. -/
theorem c2_counterexample : drawCard [] = (none, ([] : List Card)) := rfl

/-- C2 as amended: drawing from the deck when no cards remain returns the
sentinel `undefined` instead of surfacing an error, and the deck state is
unchanged by the call. -/
theorem c2_amended (deck : List Card) (h : deck = []) :
    drawCard deck = (none, deck) := by
  subst h
  rfl

/-- Witness for the amended C2 at the empty deck. -/
theorem c2_amended_witness :
    drawCard ([] : List Card) = (none, ([] : List Card)) :=
  c2_amended [] rfl

/-- C3 counterexample: in the freshly dealt round Player 1 has neither
drawn nor discarded, yet the End Turn click succeeds and hands the turn to
Player 2 — the `hasDrawn`/`hasDiscarded` flags are never consulted. -/
theorem c3_counterexample :
    (dealCardsOneByOne (initState buildDeck)).player1HasDrawn = false ∧
    (dealCardsOneByOne (initState buildDeck)).player1HasDiscarded = false ∧
    (dealCardsOneByOne (initState buildDeck)).currentPlayerIndex = 0 ∧
    (endTurnClick
      (dealCardsOneByOne (initState buildDeck))).currentPlayerIndex = 1 := by
  decide

/-- C3 as amended: ending the turn requires only that it is Player 1's
turn and that no dealing or animation is in progress — the per-turn
draw/discard flags are not checked, so a turn can be ended without any
draw or discard. A successful End Turn switches the active player to
Player 2 and resets Player 1's flags; otherwise the state is unchanged.
The End Turn button is enabled exactly when it is Player 1's turn and
Player 1's hand does not hold 4 cards. -/
theorem c3_amended (s : GState) :
    (s.currentPlayerIndex = 0 → s.isDealingCards = false →
      s.isAnimating = false →
      endTurnClick s = { s with currentPlayerIndex := 1
                                player1HasDrawn := false
                                player1HasDiscarded := false }) ∧
    (¬ (s.currentPlayerIndex = 0 ∧ s.isDealingCards = false ∧
        s.isAnimating = false) → endTurnClick s = s) ∧
    (updateEndTurnButtonState s = true ↔
      s.currentPlayerIndex = 0 ∧ s.hand1Sprites.length ≠ 4) := by
  refine ⟨?_, ?_, ?_⟩
  · intro h1 h2 h3
    rw [endTurnClick, if_pos]
    exact ⟨h1, by simp [h2], by simp [h3]⟩
  · intro h
    rw [endTurnClick, if_neg]
    rintro ⟨a, b, c⟩
    exact h ⟨a, by simpa using b, by simpa using c⟩
  · simp [updateEndTurnButtonState]

/-- Witness for the amended C3 at the fresh state (Player 1's turn, no
animation): the End Turn click switches the active player. -/
theorem c3_amended_witness :
    endTurnClick (initState buildDeck) =
      { initState buildDeck with currentPlayerIndex := 1
                                 player1HasDrawn := false
                                 player1HasDiscarded := false } :=
  (c3_amended (initState buildDeck)).1 rfl rfl rfl

/-- C9: every rejected Player 1 action is atomic — a draw attempted after
the player already drew this turn, a discard attempted before drawing, and
any of the three actions attempted when Player 1 is not the active player
all leave the whole state (hands, deck, discard pile and per-turn flags)
exactly as it was. -/
theorem c9_atomic_rejection (s : GState) (i : Nat) :
    (s.player1HasDrawn = true →
      drawCardForPlayer1 s = s ∧ drawCardFromDiscardPile s = s) ∧
    (s.player1HasDrawn = false → discardCard i s = s) ∧
    (s.currentPlayerIndex ≠ 0 →
      drawCardForPlayer1 s = s ∧ drawCardFromDiscardPile s = s ∧
        discardCard i s = s) := by
  refine ⟨fun h => ⟨?_, ?_⟩, fun h => ?_, fun h => ⟨?_, ?_, ?_⟩⟩ <;>
    simp [drawCardForPlayer1, drawCardFromDiscardPile, discardCard, h]

/-- Witness for C9: a draw after drawing, a discard before drawing, and a
draw out of turn, each at a concrete state, leave the state unchanged. -/
theorem c9_atomic_rejection_witness :
    drawCardForPlayer1 { initState buildDeck with player1HasDrawn := true } =
      { initState buildDeck with player1HasDrawn := true } ∧
    discardCard 0 (initState buildDeck) = initState buildDeck ∧
    drawCardFromDiscardPile
        { initState buildDeck with currentPlayerIndex := 1 } =
      { initState buildDeck with currentPlayerIndex := 1 } :=
  ⟨((c9_atomic_rejection _ 0).1 rfl).1,
    (c9_atomic_rejection _ 0).2.1 rfl,
    ((c9_atomic_rejection _ 0).2.2 (by decide)).2.1⟩

end CardGame31
